import Mathlib

/-!
Verification of the deterministic core of the News-Automation pipeline
(content scoring, deduplication, categorization, selection, emotion
matching, text wrapping, meme-render bookkeeping).

Python strings are modelled as Lean `String`s; character-level operations
(`str.lower`, `str.strip`, the substring operator `in`, `str.split(' ')`)
are given explicit executable models on `List Char` below, matching
Python's semantics on the inputs the pipeline handles.
-/

namespace NewsAuto

/-! ## Python string primitives -/

/-- Model of Python `str.lower()` (character-wise; identity on non-cased
letters such as Telugu script). -/
def pyLower (s : String) : String := String.mk (s.data.map Char.toLower)

/-- Whitespace recognised by Python `str.strip()` (ASCII subset). -/
def isPySpace (c : Char) : Bool := c = ' ' || c = '\t' || c = '\n' || c = '\r'

/-- Model of Python `str.strip()`. -/
def pyStrip (s : String) : String :=
  String.mk ((((s.data.dropWhile isPySpace).reverse).dropWhile isPySpace).reverse)

/-- Predicate `isPrefixB needle hay` : does `hay` start with `needle`? -/
def isPrefixB : List Char → List Char → Bool
  | [], _ => true
  | _ :: _, [] => false
  | a :: as, b :: bs => a == b && isPrefixB as bs

/-- Predicate `containsSub needle hay` : does `needle` occur contiguously in `hay`?
Model of Python's substring operator `needle in hay`. -/
def containsSub (needle : List Char) : List Char → Bool
  | [] => isPrefixB needle []
  | c :: rest => isPrefixB needle (c :: rest) || containsSub needle rest

/-- Python `needle in hay` on strings. -/
def pyIn (needle hay : String) : Bool := containsSub needle.data hay.data

/-! ## Constants (src/src/constants/__init__.py) -/

def TARGET_CATEGORIES : List String :=
  ["politics", "movies", "entertainment", "sports", "business", "technology"]

def ARTICLES_PER_CATEGORY : Nat := 10

def BASE_BUZZ_SCORE : Nat := 1
def MAX_BUZZ_SCORE : Nat := 15
def CONTENT_LENGTH_BONUS_THRESHOLD_1 : Nat := 50
def CONTENT_LENGTH_BONUS_THRESHOLD_2 : Nat := 150
def TITLE_LENGTH_BONUS_THRESHOLD : Nat := 30

def SIMILARITY_THRESHOLD : ℚ := 1 / 2

/-- Table `HIGH_BUZZ_WORDS` in source dict-literal order.  The source literal
assigns the key 'హెచ్చరిక' twice (2 then 1); per Python dict semantics the
key keeps its first position with the last value (1). -/
def HIGH_BUZZ_WORDS : List (String × Nat) :=
  [("breaking", 4), ("exclusive", 3), ("shocking", 3), ("controversy", 3),
   ("scandal", 3), ("arrest", 2), ("murder", 3), ("viral", 3),
   ("trending", 2), ("major", 2), ("important", 2), ("crisis", 2),
   ("emergency", 2), ("urgent", 2), ("alert", 2), ("warning", 1),
   ("wins", 2), ("loses", 1), ("victory", 2), ("defeat", 1), ("new", 1),
   ("బ్రేకింగ్", 4), ("ఎక్స్‌క్లూసివ్", 3), ("షాకింగ్", 3), ("వివాదాస్పదం", 3),
   ("కుంభకోణం", 3), ("అరెస్ట్", 2), ("హత్య", 3), ("వైరల్", 3),
   ("ట్రెండింగ్", 2), ("మేజర్", 2), ("ప్రధానం", 2), ("సంక్షోభం", 2),
   ("అత్యవసరం", 2), ("అర్జెంట్", 2), ("హెచ్చరిక", 1),
   ("గెలుపు", 2), ("ఓటమి", 1), ("విజయం", 2), ("పరాజయం", 1), ("కొత్త", 1),
   ("breakingu", 4), ("exclusivu", 3), ("shockingu", 3), ("controversyu", 3),
   ("kumbhakonam", 3), ("arrestu", 2), ("hatyaa", 3), ("viralu", 3),
   ("trendingu", 2), ("majoru", 2), ("pradhanam", 2), ("sankshobham", 2),
   ("atyavasaram", 2), ("urgentu", 2), ("hecharika", 2), ("warningu", 1),
   ("gelupu", 2), ("otami", 1), ("vijayam", 2), ("paraajayam", 1), ("kotha", 1),
   ("సంచలనం", 3), ("భయంకరం", 3), ("ఘోరం", 4), ("మహా", 2), ("భారీ", 2),
   ("పేలుడుకర", 4), ("రహస్యం", 3), ("లీక్", 4), ("దాచిన", 3), ("లోపలి", 3),
   ("విపత్తు", 3), ("ముప్పు", 2), ("ప్రమాదం", 3), ("భయం", 2), ("అవినీతి", 4),
   ("లంచం", 3), ("కోట్లు", 3), ("లక్షలు", 2), ("నిరసన", 2), ("సమ్మె", 2),
   ("హాట్", 3), ("హిట్", 2), ("సెన్సేషన్", 3), ("బోంబ్", 4), ("ఫైర్", 3)]

/-- Table `CATEGORY_BUZZ_WORDS` in source dict-literal order. -/
def CATEGORY_BUZZ_WORDS : List (String × Nat) :=
  [("bollywood", 2), ("cricket", 2), ("election", 2), ("politics", 1),
   ("technology", 1), ("business", 1), ("sports", 1), ("movie", 1),
   ("celebrity", 1), ("actor", 1), ("match", 1), ("win", 1), ("lose", 1),
   ("ipl", 2), ("box office", 2), ("release", 1), ("hit", 1), ("flop", 1),
   ("update", 1), ("news", 1), ("latest", 1), ("today", 1),
   ("బాలీవుడ్", 2), ("క్రికెట్", 2), ("ఎన్నికలు", 2), ("రాజకీయాలు", 1),
   ("సాంకేతికత", 1), ("వ్యాపారం", 1), ("క్రీడలు", 1), ("మూవీ", 1),
   ("సెలబ్రిటీ", 1), ("నటుడు", 1), ("మ్యాచ్", 1), ("గెలుపు", 1), ("ఓటమి", 1),
   ("ఐపీఎల్", 2), ("బాక్స్ ఆఫీస్", 2), ("రిలీజ్", 1), ("హిట్", 1), ("ఫ్లాప్", 1),
   ("అప్డేట్", 1), ("వార్తలు", 1), ("లేటెస్ట్", 1), ("ఈరోజు", 1),
   ("bollywoodu", 2), ("cricketu", 2), ("ennikalu", 2), ("rajakiyaalu", 1),
   ("technologyu", 1), ("vyapaaram", 1), ("kreedalu", 1), ("cinemaa", 1),
   ("celebrityu", 1), ("natudu", 1), ("matchu", 1), ("winu", 1), ("loseu", 1),
   ("iplu", 2), ("boxofficeu", 2), ("releaseu", 1), ("hitu", 1), ("flapu", 1),
   ("updateu", 1), ("newsulu", 1), ("latestu", 1), ("todayu", 1),
   ("టాలీవుడ్", 3), ("సినిమా", 2), ("చిత్రం", 2), ("హీరో", 2), ("హీరోయిన్", 2),
   ("దర్శకుడు", 1), ("నిర్మాత", 1), ("పాట", 2), ("సంగీతం", 2), ("కథ", 1),
   ("ప్రభుత్వం", 1), ("మంత్రి", 2), ("నాయకుడు", 1), ("పార్టీ", 1), ("అభ్యర్థి", 1),
   ("ఓటు", 1), ("ప్రచారం", 1), ("అసెంబ్లీ", 1), ("పార్లమెంట్", 1), ("సర్కార్", 1),
   ("టీమ్", 1), ("ఆటగాడు", 1), ("కెప్టెన్", 1), ("కోచ్", 1), ("టోర్నమెంట్", 1),
   ("రికార్డు", 2), ("ఛాంపియన్", 2), ("స్కోరు", 1), ("గోల్", 1), ("ప్రదర్శన", 1),
   ("కంపెనీ", 1), ("మార్కెట్", 1), ("స్టాక్", 1), ("ధర", 1), ("లాభం", 1),
   ("నష్టం", 1), ("పెట్టుబడి", 1), ("బ్యాంకు", 1), ("రుణం", 1), ("వడ్డీ", 1),
   ("మొబైల్", 1), ("ఇంటర్నెట్", 1), ("కంప్యూటర్", 1), ("యాప్", 1), ("డిజిటల్", 1),
   ("ఆన్‌లైన్", 1), ("సాఫ్ట్‌వేర్", 1), ("టెక్నాలజీ", 1), ("ఆర్టిఫిషియల్", 2)]

/-- Table `CATEGORY_KEYWORDS` (declared key order = the six target categories). -/
def CATEGORY_KEYWORDS : List (String × List String) :=
  [("politics",
    ["election", "parliament", "minister", "government", "political", "bjp",
     "congress", "modi", "politics", "vote", "party", "constituency",
     "leader", "pm", "chief minister"]),
   ("movies",
    ["movie", "film", "actor", "actress", "bollywood", "cinema", "box office",
     "trailer", "director", "producer", "release", "star", "role", "shoot",
     "debut"]),
   ("entertainment",
    ["entertainment", "celebrity", "music", "tv show", "award", "concert",
     "performance", "artist", "singer", "album", "show", "reality", "dance",
     "talent"]),
   ("sports",
    ["cricket", "football", "sports", "match", "player", "ipl", "olympics",
     "tournament", "team", "game", "score", "win", "lose", "champion",
     "league"]),
   ("business",
    ["business", "market", "stock", "economy", "startup", "investment", "ipo",
     "company", "profit", "revenue", "financial", "bank", "money", "price",
     "growth"]),
   ("technology",
    ["technology", "tech", "ai", "software", "app", "smartphone", "digital",
     "internet", "gadget", "innovation", "cyber", "data", "android", "apple",
     "google"])]

/-! ## MD5 (model of `hashlib.md5(...).hexdigest()` used by
`generate_content_hash` in src/src/utils/text_utils.py) -/

namespace MD5

/-- UTF-8 encoding of one character (model of Python `str.encode()`). -/
def utf8EncodeChar (c : Char) : List Nat :=
  let n := c.toNat
  if n < 128 then [n]
  else if n < 2048 then [192 + n / 64, 128 + n % 64]
  else if n < 65536 then [224 + n / 4096, 128 + (n / 64) % 64, 128 + n % 64]
  else [240 + n / 262144, 128 + (n / 4096) % 64, 128 + (n / 64) % 64, 128 + n % 64]

/-- UTF-8 bytes of a string. -/
def utf8Bytes (s : String) : List Nat := s.data.flatMap utf8EncodeChar

/-- Per-step left-rotation amounts. -/
def shifts : List Nat :=
  [7, 12, 17, 22, 7, 12, 17, 22, 7, 12, 17, 22, 7, 12, 17, 22,
   5, 9, 14, 20, 5, 9, 14, 20, 5, 9, 14, 20, 5, 9, 14, 20,
   4, 11, 16, 23, 4, 11, 16, 23, 4, 11, 16, 23, 4, 11, 16, 23,
   6, 10, 15, 21, 6, 10, 15, 21, 6, 10, 15, 21, 6, 10, 15, 21]

/-- Sine-derived additive constants `K[i] = floor(2^32 * |sin(i+1)|)`. -/
def sineTable : List Nat :=
  [0xd76aa478, 0xe8c7b756, 0x242070db, 0xc1bdceee,
   0xf57c0faf, 0x4787c62a, 0xa8304613, 0xfd469501,
   0x698098d8, 0x8b44f7af, 0xffff5bb1, 0x895cd7be,
   0x6b901122, 0xfd987193, 0xa679438e, 0x49b40821,
   0xf61e2562, 0xc040b340, 0x265e5a51, 0xe9b6c7aa,
   0xd62f105d, 0x02441453, 0xd8a1e681, 0xe7d3fbc8,
   0x21e1cde6, 0xc33707d6, 0xf4d50d87, 0x455a14ed,
   0xa9e3e905, 0xfcefa3f8, 0x676f02d9, 0x8d2a4c8a,
   0xfffa3942, 0x8771f681, 0x6d9d6122, 0xfde5380c,
   0xa4beea44, 0x4bdecfa9, 0xf6bb4b60, 0xbebfbc70,
   0x289b7ec6, 0xeaa127fa, 0xd4ef3085, 0x04881d05,
   0xd9d4d039, 0xe6db99e5, 0x1fa27cf8, 0xc4ac5665,
   0xf4292244, 0x432aff97, 0xab9423a7, 0xfc93a039,
   0x655b59c3, 0x8f0ccc92, 0xffeff47d, 0x85845dd1,
   0x6fa87e4f, 0xfe2ce6e0, 0xa3014314, 0x4e0811a1,
   0xf7537e82, 0xbd3af235, 0x2ad7d2bb, 0xeb86d391]

def mask32 : Nat := 4294967296

/-- 32-bit left rotation. -/
def rotl32 (x s : Nat) : Nat :=
  Nat.lor ((x <<< s) % mask32) (x >>> (32 - s))

/-- 32-bit bitwise NOT. -/
def not32 (x : Nat) : Nat := Nat.xor x 4294967295

/-- Pad the message: 0x80, zeros to 56 mod 64, then the 64-bit
little-endian bit length. -/
def pad (msg : List Nat) : List Nat :=
  let bitLen := (msg.length * 8) % (2 ^ 64)
  let zeros := (55 + 64 - msg.length % 64) % 64
  msg ++ [128] ++ List.replicate zeros 0 ++
    (List.range 8).map (fun i => (bitLen >>> (8 * i)) % 256)

/-- Group bytes into little-endian 32-bit words. -/
def bytesToWords : List Nat → List Nat
  | b0 :: b1 :: b2 :: b3 :: rest =>
      (b0 + 256 * b1 + 65536 * b2 + 16777216 * b3) :: bytesToWords rest
  | _ => []

/-- Group words into 16-word blocks. -/
def wordsToBlocks : List Nat → List (List Nat)
  | w0 :: w1 :: w2 :: w3 :: w4 :: w5 :: w6 :: w7 ::
    w8 :: w9 :: w10 :: w11 :: w12 :: w13 :: w14 :: w15 :: rest =>
      [w0, w1, w2, w3, w4, w5, w6, w7, w8, w9, w10, w11, w12, w13, w14, w15]
        :: wordsToBlocks rest
  | _ => []

/-- One of the 64 MD5 steps. -/
def md5Step (M : List Nat) (st : Nat × Nat × Nat × Nat) (i : Nat) :
    Nat × Nat × Nat × Nat :=
  let (a, b, c, d) := st
  let (f, g) :=
    if i < 16 then (Nat.lor (Nat.land b c) (Nat.land (not32 b) d), i)
    else if i < 32 then (Nat.lor (Nat.land d b) (Nat.land (not32 d) c), (5 * i + 1) % 16)
    else if i < 48 then (Nat.xor (Nat.xor b c) d, (3 * i + 5) % 16)
    else (Nat.xor c (Nat.lor b (not32 d)), (7 * i) % 16)
  let f' := (f + a + sineTable.getD i 0 + M.getD g 0) % mask32
  (d, (b + rotl32 f' (shifts.getD i 0)) % mask32, b, c)

/-- Compress one 16-word block into the running state. -/
def md5Block (st : Nat × Nat × Nat × Nat) (M : List Nat) :
    Nat × Nat × Nat × Nat :=
  let (a0, b0, c0, d0) := st
  let (a, b, c, d) := (List.range 64).foldl (md5Step M) st
  ((a0 + a) % mask32, (b0 + b) % mask32, (c0 + c) % mask32, (d0 + d) % mask32)

def hexChar (n : Nat) : Char :=
  if n < 10 then Char.ofNat (48 + n) else Char.ofNat (87 + n)

/-- Little-endian lowercase hex of one 32-bit word. -/
def wordToHex (w : Nat) : List Char :=
  (List.range 4).flatMap (fun i =>
    let byte := (w >>> (8 * i)) % 256
    [hexChar (byte / 16), hexChar (byte % 16)])

/-- MD5 hexdigest of a byte list. -/
def digestBytes (msg : List Nat) : String :=
  let blocks := wordsToBlocks (bytesToWords (pad msg))
  let (a, b, c, d) :=
    blocks.foldl md5Block (0x67452301, 0xefcdab89, 0x98badcfe, 0x10325476)
  String.mk (wordToHex a ++ wordToHex b ++ wordToHex c ++ wordToHex d)

end MD5

/-- Model of `generate_content_hash` (src/src/utils/text_utils.py): MD5 hexdigest of
the UTF-8 encoded content. -/
def generate_content_hash (content : String) : String :=
  MD5.digestBytes (MD5.utf8Bytes content)

/-! ## difflib.SequenceMatcher (stdlib dependency of `calculate_similarity`)

Model of `SequenceMatcher(None, a, b).ratio()` over rationals: total size of
the recursively-found matching blocks, doubled and divided by the combined
length.  Includes the `autojunk` popularity rule (active only when the
second sequence has at least 200 elements). -/

namespace Difflib

/-- Popular elements of `b` are junk when `b` is long (autojunk). -/
def isPopularJunk (b : List Char) (c : Char) : Bool :=
  (200 ≤ b.length) && (b.length / 100 + 1 < b.count c)

/-- Map `b2j`: ascending positions of `c` in `b`, junk excluded. -/
def b2j (b : List Char) (c : Char) : List Nat :=
  if isPopularJunk b c then []
  else (List.range b.length).filter (fun j => b.getD j ' ' == c)

/-- Inner loop of `find_longest_match`: one row of the longest-suffix-match
table, updating the running best block.  `j2len` is the previous row. -/
def flmInner (i : Nat) (j2len : List (Nat × Nat)) :
    List Nat → List (Nat × Nat) → Nat × Nat × Nat →
    List (Nat × Nat) × (Nat × Nat × Nat)
  | [], newj2len, best => (newj2len, best)
  | j :: js, newj2len, best =>
    let k := (if j = 0 then 0 else (j2len.lookup (j - 1)).getD 0) + 1
    let best' := if best.2.2 < k then (i + 1 - k, j + 1 - k, k) else best
    flmInner i j2len js ((j, k) :: newj2len) best'

/-- Outer loop of `find_longest_match` over the rows `i ∈ [alo, ahi)`. -/
def flmOuter (a b : List Char) (blo bhi : Nat) :
    List Nat → List (Nat × Nat) → Nat × Nat × Nat → Nat × Nat × Nat
  | [], _, best => best
  | i :: is, j2len, best =>
    let js := (b2j b (a.getD i ' ')).filter (fun j => blo ≤ j && j < bhi)
    let (newj2len, best') := flmInner i j2len js [] best
    flmOuter a b blo bhi is newj2len best'

/-- Extend the best block downward while the adjacent elements are equal
and their junk status matches `junkOk` (fuel-bounded `while` loop). -/
def extendLo (a b : List Char) (junkOk : Bool) (alo blo : Nat) :
    Nat → Nat × Nat × Nat → Nat × Nat × Nat
  | 0, st => st
  | fuel + 1, (bi, bj, bs) =>
    if alo < bi && blo < bj &&
       (isPopularJunk b (b.getD (bj - 1) ' ') == junkOk) &&
       (a.getD (bi - 1) ' ' == b.getD (bj - 1) ' ') then
      extendLo a b junkOk alo blo fuel (bi - 1, bj - 1, bs + 1)
    else (bi, bj, bs)

/-- Extend the best block upward, symmetric to `extendLo`. -/
def extendHi (a b : List Char) (junkOk : Bool) (ahi bhi : Nat) :
    Nat → Nat × Nat × Nat → Nat × Nat × Nat
  | 0, st => st
  | fuel + 1, (bi, bj, bs) =>
    if bi + bs < ahi && bj + bs < bhi &&
       (isPopularJunk b (b.getD (bj + bs) ' ') == junkOk) &&
       (a.getD (bi + bs) ' ' == b.getD (bj + bs) ' ') then
      extendHi a b junkOk ahi bhi fuel (bi, bj, bs + 1)
    else (bi, bj, bs)

/-- Model of `find_longest_match(alo, ahi, blo, bhi)`: best block `(i, j, size)`. -/
def find_longest_match (a b : List Char) (alo ahi blo bhi : Nat) :
    Nat × Nat × Nat :=
  let fuel := ahi + bhi + 1
  let best := flmOuter a b blo bhi (List.range' alo (ahi - alo)) [] (alo, blo, 0)
  extendHi a b true ahi bhi fuel
    (extendLo a b true alo blo fuel
      (extendHi a b false ahi bhi fuel
        (extendLo a b false alo blo fuel best)))

/-- Total size of all matching blocks found by the recursive subdivision of
`get_matching_blocks` (the only datum `ratio()` needs).  Fuel bounds the
recursion depth. -/
def matchSum (a b : List Char) : Nat → Nat → Nat → Nat → Nat → Nat
  | 0, _, _, _, _ => 0
  | fuel + 1, alo, ahi, blo, bhi =>
    let m := find_longest_match a b alo ahi blo bhi
    let i := m.1
    let j := m.2.1
    let k := m.2.2
    if k = 0 then 0
    else
      k + (if alo < i && blo < j then matchSum a b fuel alo i blo j else 0)
        + (if i + k < ahi && j + k < bhi then
             matchSum a b fuel (i + k) ahi (j + k) bhi else 0)

/-- Model of `SequenceMatcher(None, a, b).ratio()` as an exact rational. -/
def sequenceRatio (a b : List Char) : ℚ :=
  let total := a.length + b.length
  if total = 0 then 1
  else (2 * (matchSum a b (total + 1) 0 a.length 0 b.length) : ℚ) / total

end Difflib

/-- Model of `calculate_similarity` (src/src/utils/text_utils.py). -/
def calculate_similarity (text1 text2 : String) : ℚ :=
  Difflib.sequenceRatio (pyStrip (pyLower text1)).data (pyStrip (pyLower text2)).data

/-- Model of `find_most_similar_text` (src/src/utils/text_utils.py): exact-match
fast path, then best-similarity scan, else the first candidate. -/
def find_most_similar_text (target : String) (candidates : List String)
    (threshold : ℚ) : String :=
  if candidates.isEmpty then ""
  else
    let target_lower := pyStrip (pyLower target)
    match candidates.find? (fun c => pyStrip (pyLower c) == target_lower) with
    | some c => c
    | none =>
      let best := candidates.foldl
        (fun (acc : String × ℚ) c =>
          let similarity := calculate_similarity target_lower c
          if acc.2 < similarity then (c, similarity) else acc)
        ("", 0)
      if threshold < best.2 then best.1
      else if candidates.isEmpty then "" else candidates.headD ""

/-! ## Articles and deduplication (src/src/utils/text_utils.py) -/

/-- One raw scraped article (the dict fields the pipeline core reads).
`category` is `article.get('category')`. -/
structure Article where
  title : String
  content : String
  category : Option String
deriving DecidableEq, Repr

/-- The loop of `remove_duplicates_by_content`: `seen` is the
`seen_hashes` set, `unique` the accumulated `unique_articles`. -/
def removeDupAux : List Article → List String → List Article → List Article
  | [], _, unique => unique
  | a :: rest, seen, unique =>
    let content_hash := generate_content_hash a.content
    if content_hash ∈ seen then removeDupAux rest seen unique
    else removeDupAux rest (content_hash :: seen) (unique ++ [a])

/-- Model of `remove_duplicates_by_content` (src/src/utils/text_utils.py). -/
def remove_duplicates_by_content (articles : List Article) : List Article :=
  removeDupAux articles [] []

/-! ## ContentProcessor (src/src/components/content_processor.py) -/

/-- Model of `ContentProcessor.calculate_buzz_score`. -/
def calculate_buzz_score (title content : String) : Nat :=
  let text := pyLower (title ++ " " ++ content)
  let b1 := HIGH_BUZZ_WORDS.foldl
    (fun acc kv => if pyIn kv.1 text then acc + kv.2 else acc) BASE_BUZZ_SCORE
  let b2 := CATEGORY_BUZZ_WORDS.foldl
    (fun acc kv => if pyIn kv.1 text then acc + kv.2 else acc) b1
  let b3 := if CONTENT_LENGTH_BONUS_THRESHOLD_1 < content.length then b2 + 1 else b2
  let b4 := if CONTENT_LENGTH_BONUS_THRESHOLD_2 < content.length then b3 + 1 else b3
  let b5 := if ["how", "why", "what", "when", "where"].any
      (fun w => pyIn w (pyLower title)) then b4 + 1 else b4
  let b6 := if TITLE_LENGTH_BONUS_THRESHOLD < title.length then b5 + 1 else b5
  min b6 MAX_BUZZ_SCORE

/-- The guard `if source_category and source_category in target_categories`
(Python truthiness: `None` and `""` are falsy). -/
def sourceCatOk (source_category : Option String) : Bool :=
  match source_category with
  | none => false
  | some sc => sc != "" && TARGET_CATEGORIES.contains sc

/-- Per-category keyword counts, in the table's declared order. -/
def categoryScores (text : String) : List (String × Nat) :=
  CATEGORY_KEYWORDS.map (fun ck =>
    (ck.1, (ck.2.map (fun kw => if pyIn kw text then 1 else 0)).sum))

/-- Python `max(scores, key=scores.get)`: the first entry attaining the
maximal value, in iteration order. -/
def maxByScore : List (String × Nat) → Option (String × Nat)
  | [] => none
  | s :: rest => some (rest.foldl (fun acc x => if acc.2 < x.2 then x else acc) s)

/-- The final fallback `source_category if source_category in
target_categories else 'entertainment'` (no truthiness check here). -/
def categoryFallback (source_category : Option String) : String :=
  match source_category with
  | some sc => if TARGET_CATEGORIES.contains sc then sc else "entertainment"
  | none => "entertainment"

/-- Model of `ContentProcessor.categorize_content`. -/
def categorize_content (title content : String)
    (source_category : Option String) : String :=
  let text := pyLower (title ++ " " ++ content)
  if sourceCatOk source_category then source_category.getD ""
  else
    match maxByScore (categoryScores text) with
    | some best => if 0 < best.2 then best.1 else categoryFallback source_category
    | none => categoryFallback source_category

/-- An article after scoring and categorization (`article.copy()` updated
with `buzz_score` and `final_category`). -/
structure ProcessedArticle where
  title : String
  content : String
  category : Option String
  buzz_score : Nat
  final_category : String
deriving DecidableEq, Repr

/-- The per-article loop of `process_articles`: score, categorize, keep
only target categories. -/
def processArticleList (unique : List Article) : List ProcessedArticle :=
  unique.filterMap (fun a =>
    let buzz := calculate_buzz_score a.title a.content
    let cat := categorize_content a.title a.content a.category
    if cat ∈ TARGET_CATEGORIES then
      some ⟨a.title, a.content, a.category, buzz, cat⟩
    else none)

/-- The `categorized_news` bucket of one category: the group-by-category
loop appends each processed article to the bucket of its
`final_category`, preserving order. -/
def groupFor (processed : List ProcessedArticle) (c : String) :
    List ProcessedArticle :=
  processed.filter (fun p => p.final_category == c)

/-- Model of `category_articles.sort(key=buzz_score, reverse=True)`: stable
descending sort by buzz score. -/
def sortByBuzzDesc (l : List ProcessedArticle) : List ProcessedArticle :=
  l.mergeSort (fun x y => Nat.ble y.buzz_score x.buzz_score)

/-- The per-category selection step of `process_articles`: top-N when the
bucket is full, otherwise everything plus entertainment extras not already
in this category's own selection. -/
def selectForCategory (processed : List ProcessedArticle) (c : String) :
    List ProcessedArticle :=
  let category_articles := groupFor processed c
  if ARTICLES_PER_CATEGORY ≤ category_articles.length then
    (sortByBuzzDesc category_articles).take ARTICLES_PER_CATEGORY
  else
    let selected := category_articles
    if c ≠ "entertainment" ∧ selected.length < ARTICLES_PER_CATEGORY then
      let extras := ((groupFor processed "entertainment").filter
          (fun a => !(selected.contains a))).take
        (ARTICLES_PER_CATEGORY - selected.length)
      selected ++ extras
    else selected

/-- Model of `ContentProcessorArtifact` (src/src/entity/artifacts.py fields used by
the pipeline). -/
structure ContentProcessorArtifact where
  processed_articles : List ProcessedArticle
  categorized_news : List (String × List ProcessedArticle)
  unique_articles_count : Nat
deriving DecidableEq, Repr

/-- Model of `ContentProcessor.process_articles`. -/
def process_articles (articles : List Article) : ContentProcessorArtifact :=
  let unique := remove_duplicates_by_content articles
  let processed := processArticleList unique
  { processed_articles := processed
    categorized_news := TARGET_CATEGORIES.map (fun c => (c, selectForCategory processed c))
    unique_articles_count := unique.length }

/-- The final bucket of one category in the returned artifact. -/
def bucketOf (art : ContentProcessorArtifact) (c : String) :
    List ProcessedArticle :=
  (art.categorized_news.lookup c).getD []

/-! ## MemeGenerator (src/src/components/meme_generator.py) -/

/-- Model of Python `text.split(' ')` on character lists. -/
def pySplitSpace : List Char → List (List Char)
  | [] => [[]]
  | c :: rest =>
    if c = ' ' then [] :: pySplitSpace rest
    else
      match pySplitSpace rest with
      | [] => [[c]]
      | w :: ws => (c :: w) :: ws

/-- The word loop of `MemeGenerator.wrap_text`.  `measure` stands for the
font's text-measurement (getbbox/getsize/estimate branches), an external
collaborator. -/
def wrapLoop (measure : List Char → Int) (maxWidth : Int) :
    List (List Char) → List (List Char) → List Char → List (List Char)
  | [], lines, current => if current = [] then lines else lines ++ [current]
  | word :: ws, lines, current =>
    let test_line := current ++ (if current = [] then [] else [' ']) ++ word
    let text_width := measure test_line
    if text_width ≤ maxWidth then wrapLoop measure maxWidth ws lines test_line
    else if current = [] then wrapLoop measure maxWidth ws (lines ++ [word]) current
    else wrapLoop measure maxWidth ws (lines ++ [current]) word

/-- Model of `MemeGenerator.wrap_text` with the font measurement abstracted. -/
def wrap_text (measure : List Char → Int) (maxWidth : Int)
    (text : List Char) : List (List Char) :=
  wrapLoop measure maxWidth (pySplitSpace text) [] []

/-- The success/failure counters of a `MemeGenerator` instance. -/
structure MemeGenState where
  generated_count : Nat
  failed_count : Nat
deriving DecidableEq, Repr

/-- The template argument of `generate_meme_with_overlay`: raw bytes or a
URL/path to download. -/
inductive TemplateInput where
  | bytes (data : List Nat)
  | url (address : String)
deriving DecidableEq

/-- Python truthiness test `not template_url_or_bytes`. -/
def templateFalsy : TemplateInput → Bool
  | .bytes d => d.isEmpty
  | .url u => u == ""

/-- Model of `MemeGenerator.generate_meme_with_overlay`, with its three external
collaborators as parameters: `download` (supabase template fetch, `None`
on failure), `decode` (PIL `Image.open`, `none` when the bytes are
undecodable, which the source catches and counts as a failure), and
`render` (the PIL resize/draw/encode tail, which yields the base64
payload).  Returns the payload ("" on failure) and the updated
counters. -/
def generate_meme_with_overlay {Img : Type}
    (download : String → Option (List Nat))
    (decode : List Nat → Option Img)
    (render : Img → List String → String)
    (st : MemeGenState) (template : TemplateInput) (dialogues : List String) :
    String × MemeGenState :=
  if templateFalsy template || dialogues.isEmpty then
    ("", { st with failed_count := st.failed_count + 1 })
  else
    let templateBytes : Option (List Nat) :=
      match template with
      | .bytes d => some d
      | .url u =>
        match download u with
        | none => none
        | some b => if b.isEmpty then none else some b
    match templateBytes with
    | none => ("", { st with failed_count := st.failed_count + 1 })
    | some b =>
      match decode b with
      | none => ("", { st with failed_count := st.failed_count + 1 })
      | some img =>
        (render img dialogues, { st with generated_count := st.generated_count + 1 })

/-! ## Auxiliary definitions for the proofs -/

/-- Emission-order form of the `remove_duplicates_by_content` loop
(the accumulator version `removeDupAux` appends; this one conses). -/
def rmdupGo (seen : List String) : List Article → List Article
  | [] => []
  | a :: rest =>
    let h := generate_content_hash a.content
    if h ∈ seen then rmdupGo seen rest
    else a :: rmdupGo (h :: seen) rest

/-- Content hash of an article, as used by the dedup loop. -/
def hashOf (a : Article) : String := generate_content_hash a.content

/-- Content hash of a processed article. -/
def hashOfP (p : ProcessedArticle) : String := generate_content_hash p.content

/-- Join a group of words with single spaces (how `wrap_text` builds its
current line). -/
def joinSpace : List (List Char) → List Char
  | [] => []
  | [w] => w
  | w :: v :: ws => w ++ ' ' :: joinSpace (v :: ws)

/-- Accumulator-free form of the `wrap_text` loop: emits each finished
line in order instead of appending it to `lines`. -/
def wrapGo (measure : List Char → Int) (maxWidth : Int) :
    List (List Char) → List Char → List (List Char)
  | [], current => if current = [] then [] else [current]
  | word :: ws, current =>
    let test_line := current ++ (if current = [] then [] else [' ']) ++ word
    if measure test_line ≤ maxWidth then wrapGo measure maxWidth ws test_line
    else if current = [] then word :: wrapGo measure maxWidth ws current
    else current :: wrapGo measure maxWidth ws word

/-- The title of the spec's end-to-end scoring scenario. -/
def buzzTitle : String := "Breaking: Major scandal rocks Bollywood today"

/-- A keyword-free content of length 200 for the scoring scenario. -/
def zContent : String := String.mk (List.replicate 200 'z')

/-- A sample article carrying the source category `entertainment`. -/
def sampleEntArticle : Article := ⟨"t", "c", some "entertainment"⟩

/-- Two sample articles with identical content (dedup fodder). -/
def sampleArtX : Article := ⟨"first", "same text", none⟩

def sampleArtY : Article := ⟨"second", "same text", none⟩

/-! # Theorems

## Deduplication (claims C5, C6) -/

theorem hashOf_def (a : Article) : generate_content_hash a.content = hashOf a := rfl

theorem removeDupAux_eq_go (l : List Article) :
    ∀ (seen : List String) (unique : List Article),
      removeDupAux l seen unique = unique ++ rmdupGo seen l := by
  induction l with
  | nil => intro seen unique; simp [removeDupAux, rmdupGo]
  | cons a rest ih =>
    intro seen unique
    simp only [removeDupAux, rmdupGo]
    split
    · exact ih seen unique
    · rw [ih]; simp

theorem rmdup_eq_go (l : List Article) :
    remove_duplicates_by_content l = rmdupGo [] l := by
  simpa using removeDupAux_eq_go l [] []

theorem rmdupGo_length_le (l : List Article) :
    ∀ seen, (rmdupGo seen l).length ≤ l.length := by
  induction l with
  | nil => intro seen; simp [rmdupGo]
  | cons a rest ih =>
    intro seen
    simp only [rmdupGo]
    split
    · exact Nat.le_succ_of_le (ih seen)
    · simpa using ih _

theorem rmdupGo_fresh (l : List Article) :
    ∀ seen, ∀ a ∈ rmdupGo seen l, hashOf a ∉ seen := by
  induction l with
  | nil => intro seen a ha; simp [rmdupGo] at ha
  | cons x rest ih =>
    intro seen a ha
    simp only [rmdupGo] at ha
    split at ha
    · exact ih seen a ha
    · rcases List.mem_cons.mp ha with h | h
      · subst h; assumption
      · have := ih _ a h
        exact fun hs => this (List.mem_cons_of_mem _ hs)

theorem rmdupGo_hashes_nodup (l : List Article) :
    ∀ seen, ((rmdupGo seen l).map hashOf).Nodup := by
  induction l with
  | nil => intro seen; simp [rmdupGo]
  | cons x rest ih =>
    intro seen
    simp only [rmdupGo]
    split
    · exact ih seen
    · simp only [List.map_cons, List.nodup_cons]
      refine ⟨?_, ih _⟩
      intro hmem
      rcases List.mem_map.mp hmem with ⟨b, hb, hhash⟩
      exact rmdupGo_fresh rest _ b hb (hhash ▸ List.mem_cons_self _ _)

theorem rmdupGo_id_of_fresh (l : List Article) :
    ∀ seen, (∀ a ∈ l, hashOf a ∉ seen) → (l.map hashOf).Nodup →
      rmdupGo seen l = l := by
  induction l with
  | nil => intro seen _ _; simp [rmdupGo]
  | cons x rest ih =>
    intro seen hfresh hnodup
    simp only [rmdupGo, hashOf_def]
    rw [if_neg (hfresh x (List.mem_cons_self _ _))]
    simp only [List.map_cons, List.nodup_cons] at hnodup
    congr 1
    refine ih _ ?_ hnodup.2
    intro a ha
    intro hmem
    rcases List.mem_cons.mp hmem with h | h
    · exact hnodup.1 (h ▸ List.mem_map_of_mem hashOf ha)
    · exact hfresh a (List.mem_cons_of_mem _ ha) h

/-- C5: deduplication is idempotent and never lengthens the list.
`remove_duplicates_by_content (remove_duplicates_by_content x) =
remove_duplicates_by_content x` and `|dedupe x| ≤ |x|`. -/
theorem remove_duplicates_idempotent_and_shrinking (x : List Article) :
    remove_duplicates_by_content (remove_duplicates_by_content x) =
      remove_duplicates_by_content x ∧
    (remove_duplicates_by_content x).length ≤ x.length := by
  constructor
  · rw [rmdup_eq_go, rmdup_eq_go]
    exact rmdupGo_id_of_fresh _ [] (by simp) (rmdupGo_hashes_nodup x [])
  · rw [rmdup_eq_go]; exact rmdupGo_length_le x []

theorem rmdupGo_sublist (l : List Article) :
    ∀ seen, (rmdupGo seen l).Sublist l := by
  induction l with
  | nil => intro seen; simp [rmdupGo]
  | cons x rest ih =>
    intro seen
    simp only [rmdupGo]
    split
    · exact (ih seen).cons x
    · exact (ih _).cons₂ x

theorem rmdupGo_covers (l : List Article) :
    ∀ seen, ∀ a ∈ l, hashOf a ∈ seen ∨
      ∃ b ∈ rmdupGo seen l, hashOf b = hashOf a := by
  induction l with
  | nil => intro seen a ha; simp at ha
  | cons x rest ih =>
    intro seen a ha
    simp only [rmdupGo, hashOf_def]
    rcases List.mem_cons.mp ha with h | h
    · subst h
      by_cases hx : hashOf a ∈ seen
      · exact Or.inl hx
      · refine Or.inr ?_
        rw [if_neg ?_]
        · exact ⟨a, List.mem_cons_self _ _, rfl⟩
        · exact hx
    · by_cases hx : hashOf x ∈ seen
      · rw [if_pos hx]
        exact ih seen a h
      · rw [if_neg hx]
        rcases ih (hashOf x :: seen) a h with hmem | ⟨b, hb, hhash⟩
        · rcases List.mem_cons.mp hmem with heq | hseen
          · exact Or.inr ⟨x, List.mem_cons_self _ _, heq.symm⟩
          · exact Or.inl hseen
        · exact Or.inr ⟨b, List.mem_cons_of_mem _ hb, hhash⟩

theorem rmdupGo_first_seen (l : List Article) :
    ∀ seen, ∀ b ∈ rmdupGo seen l,
      l.find? (fun x => hashOf x == hashOf b) = some b := by
  induction l with
  | nil => intro seen b hb; simp [rmdupGo] at hb
  | cons x rest ih =>
    intro seen b hb
    simp only [rmdupGo, hashOf_def] at hb
    by_cases hx : hashOf x ∈ seen
    · rw [if_pos hx] at hb
      have hfresh := rmdupGo_fresh rest seen b hb
      have hne : ¬(hashOf x == hashOf b) = true := by
        intro h
        exact hfresh ((eq_of_beq h) ▸ hx)
      rw [@List.find?_cons_of_neg Article (fun y => hashOf y == hashOf b) x rest hne]
      exact ih seen b hb
    · rw [if_neg hx] at hb
      rcases List.mem_cons.mp hb with heq | hmem
      · subst heq
        rw [@List.find?_cons_of_pos Article (fun y => hashOf y == hashOf b) b rest (by simp)]
      · have hfresh := rmdupGo_fresh rest _ b hmem
        have hne : ¬(hashOf x == hashOf b) = true := by
          intro h
          exact hfresh ((eq_of_beq h) ▸ List.mem_cons_self _ _)
        rw [@List.find?_cons_of_neg Article (fun y => hashOf y == hashOf b) x rest hne]
        exact ih _ b hmem

/-- C6: deduplication keeps exactly the first-seen article per distinct
content hash, in input order: the result is a subsequence of the input,
its content hashes are pairwise distinct, every input content hash is
represented, each kept article is the first input article bearing its
hash, and the hash is computed from `content` alone. -/
theorem remove_duplicates_first_seen_spec (l : List Article) :
    (remove_duplicates_by_content l).Sublist l ∧
    ((remove_duplicates_by_content l).map hashOf).Nodup ∧
    (∀ a ∈ l, ∃ b ∈ remove_duplicates_by_content l, hashOf b = hashOf a) ∧
    (∀ b ∈ remove_duplicates_by_content l,
      l.find? (fun x => hashOf x == hashOf b) = some b) ∧
    (∀ a b : Article, a.content = b.content → hashOf a = hashOf b) := by
  rw [rmdup_eq_go]
  refine ⟨rmdupGo_sublist l [], rmdupGo_hashes_nodup l [], ?_, ?_, ?_⟩
  · intro a ha
    rcases rmdupGo_covers l [] a ha with h | h
    · simp at h
    · exact h
  · exact rmdupGo_first_seen l []
  · intro a b h
    simp [hashOf, h]

/-- Witness for C6 at a concrete input with a duplicated content. -/
theorem remove_duplicates_first_seen_spec_witness :
    ∃ b ∈ remove_duplicates_by_content [sampleArtX, sampleArtY],
      hashOf b = hashOf sampleArtY :=
  (remove_duplicates_first_seen_spec [sampleArtX, sampleArtY]).2.2.1
    sampleArtY (by decide)

/-- Witness for C5 at a concrete input. -/
theorem remove_duplicates_idempotent_and_shrinking_witness :
    remove_duplicates_by_content
        (remove_duplicates_by_content [sampleArtX, sampleArtY]) =
      remove_duplicates_by_content [sampleArtX, sampleArtY] ∧
    (remove_duplicates_by_content [sampleArtX, sampleArtY]).length ≤
      ([sampleArtX, sampleArtY] : List Article).length :=
  remove_duplicates_idempotent_and_shrinking [sampleArtX, sampleArtY]

/-! ## Buzz score bounds (claim C4) -/

theorem foldl_buzz_ge (l : List (String × Nat)) (t : String) :
    ∀ acc : Nat,
      acc ≤ l.foldl (fun a kv => if pyIn kv.1 t then a + kv.2 else a) acc := by
  induction l with
  | nil => intro acc; simp
  | cons kv rest ih =>
    intro acc
    simp only [List.foldl_cons]
    refine le_trans ?_ (ih _)
    split <;> omega

theorem ite_add_ge (c : Prop) [Decidable c] (x y : Nat) :
    x ≤ if c then x + y else x := by
  split <;> omega

/-- C4: for every title and content the buzz score is an integer in
`[BASE_BUZZ_SCORE, MAX_BUZZ_SCORE] = [1, 15]` (and the base score the
failure path returns is itself in that interval). -/
theorem calculate_buzz_score_bounds (title content : String) :
    1 ≤ calculate_buzz_score title content ∧
    calculate_buzz_score title content ≤ 15 ∧
    BASE_BUZZ_SCORE = 1 ∧ MAX_BUZZ_SCORE = 15 := by
  refine ⟨?_, ?_, rfl, rfl⟩
  · unfold calculate_buzz_score
    refine Nat.le_min.mpr ⟨?_, by decide⟩
    refine le_trans ?_ (ite_add_ge _ _ 1)
    refine le_trans ?_ (ite_add_ge _ _ 1)
    refine le_trans ?_ (ite_add_ge _ _ 1)
    refine le_trans ?_ (ite_add_ge _ _ 1)
    exact le_trans (foldl_buzz_ge HIGH_BUZZ_WORDS _ BASE_BUZZ_SCORE)
      (foldl_buzz_ge CATEGORY_BUZZ_WORDS _ _)
  · unfold calculate_buzz_score
    exact Nat.min_le_right _ _

/-- Witness for C4 at a concrete title and content. -/
theorem calculate_buzz_score_bounds_witness :
    1 ≤ calculate_buzz_score "a" "b" ∧ calculate_buzz_score "a" "b" ≤ 15 ∧
    BASE_BUZZ_SCORE = 1 ∧ MAX_BUZZ_SCORE = 15 :=
  calculate_buzz_score_bounds "a" "b"

/-! ## Categorization (claim C7) -/

theorem foldl_max_mem (rest : List (String × Nat)) :
    ∀ s : String × Nat,
      rest.foldl (fun acc x => if acc.2 < x.2 then x else acc) s ∈ s :: rest := by
  induction rest with
  | nil => intro s; simp
  | cons x rest ih =>
    intro s
    simp only [List.foldl_cons]
    rcases List.mem_cons.mp (ih (if s.2 < x.2 then x else s)) with h | h
    · rw [h]
      split
      · exact List.mem_cons_of_mem _ (List.mem_cons_self _ _)
      · exact List.mem_cons_self _ _
    · exact List.mem_cons_of_mem _ (List.mem_cons_of_mem _ h)

theorem maxByScore_mem {l : List (String × Nat)} {b : String × Nat}
    (h : maxByScore l = some b) : b ∈ l := by
  cases l with
  | nil => simp [maxByScore] at h
  | cons s rest =>
    simp only [maxByScore, Option.some.injEq] at h
    exact h ▸ foldl_max_mem rest s

theorem categoryScores_fst (t : String) :
    (categoryScores t).map Prod.fst = TARGET_CATEGORIES := rfl

theorem categoryFallback_mem (sc : Option String) :
    categoryFallback sc ∈ TARGET_CATEGORIES := by
  cases sc with
  | none => decide
  | some s =>
    simp only [categoryFallback]
    split
    · next h => simpa using h
    · decide

/-- C7: `categorize_content` always returns one of the six target
categories, and on all-empty input (absent or empty source category) it
returns the default category `entertainment`. -/
theorem categorize_content_in_targets :
    (∀ (title content : String) (sc : Option String),
      categorize_content title content sc ∈ TARGET_CATEGORIES) ∧
    categorize_content "" "" none = "entertainment" ∧
    categorize_content "" "" (some "") = "entertainment" := by
  refine ⟨?_, by decide, by decide⟩
  intro title content sc
  unfold categorize_content
  by_cases hok : sourceCatOk sc = true
  · rw [if_pos hok]
    match sc, hok with
    | some s, hok =>
      simp only [sourceCatOk, Bool.and_eq_true] at hok
      simpa [Option.getD] using hok.2
  · rw [if_neg hok]
    cases hmax : maxByScore (categoryScores (pyLower (title ++ " " ++ content))) with
    | none => exact categoryFallback_mem sc
    | some best =>
      simp only
      split
      · have hmem := List.mem_map_of_mem Prod.fst (maxByScore_mem hmax)
        rwa [categoryScores_fst] at hmem
      · exact categoryFallback_mem sc

/-- Witness for C7 at a concrete input. -/
theorem categorize_content_in_targets_witness :
    categorize_content "x" "y" none ∈ TARGET_CATEGORIES :=
  categorize_content_in_targets.1 "x" "y" none

/-! ## Meme-render failure guard (claim C9) -/

/-- C9: with an empty dialogue list or empty template bytes, the render
returns the failure outcome `""` without producing an image, increments
the failure counter by exactly one, and leaves the success counter
unchanged. -/
theorem generate_meme_failure_guard {Img : Type}
    (download : String → Option (List Nat)) (decode : List Nat → Option Img)
    (render : Img → List String → String) (st : MemeGenState)
    (template : TemplateInput) (dialogues : List String)
    (h : dialogues = [] ∨ template = .bytes []) :
    generate_meme_with_overlay download decode render st template dialogues =
      ("", ⟨st.generated_count, st.failed_count + 1⟩) := by
  rcases h with h | h
  · subst h
    simp [generate_meme_with_overlay]
  · subst h
    simp [generate_meme_with_overlay, templateFalsy]

/-- Witness for C9 at concrete inputs (empty template bytes). -/
theorem generate_meme_failure_guard_witness :
    @generate_meme_with_overlay Unit (fun _ => none) (fun _ => none)
      (fun _ _ => "img") ⟨3, 4⟩ (.bytes []) ["hello"] = ("", ⟨3, 5⟩) :=
  generate_meme_failure_guard _ _ _ _ _ _ (Or.inr rfl)

/-! ## Buzz score scenario (claim C2) -/

theorem foldl_filter_sum (l : List (String × Nat)) (p : String × Nat → Bool) :
    ∀ acc : Nat,
      l.foldl (fun a kv => if p kv then a + kv.2 else a) acc
        = acc + ((l.filter p).map Prod.snd).sum := by
  induction l with
  | nil => intro acc; simp
  | cons kv rest ih =>
    intro acc
    simp only [List.foldl_cons, List.filter_cons]
    by_cases h : p kv
    · rw [if_pos h, if_pos h, ih]
      simp [Nat.add_assoc]
    · rw [if_neg h, if_neg h, ih]

set_option maxRecDepth 100000 in
/-- Counterexample to C2: the scenario title with a 200-character,
keyword-free content scores 15, not 13 (the spec's tally misses the
keywords "major" and "today" and the clamp at `MAX_BUZZ_SCORE`). -/
theorem calculate_buzz_score_scenario_counterexample :
    zContent.length = 200 ∧
    ((HIGH_BUZZ_WORDS ++ CATEGORY_BUZZ_WORDS).all
      (fun kv => !(pyIn kv.1 zContent))) = true ∧
    calculate_buzz_score buzzTitle zContent = 15 ∧ (15 : Nat) ≠ 13 := by
  refine ⟨by decide, by decide, by decide, by decide⟩

/-- C2 amended: with that title, and a content of length 200 whose only
contribution to the keyword search text are the title's own keywords
(breaking→4, scandal→3, major→2 from the high-buzz table; bollywood→2,
today→1 from the category table), the score is
`min (1 + 9 + 3 + 1 + 1 + 1) 15 = 15`. -/
theorem calculate_buzz_score_scenario (content : String)
    (hlen : content.length = 200)
    (hHigh : HIGH_BUZZ_WORDS.filter
        (fun kv => pyIn kv.1 (pyLower (buzzTitle ++ " " ++ content)))
      = [("breaking", 4), ("scandal", 3), ("major", 2)])
    (hCat : CATEGORY_BUZZ_WORDS.filter
        (fun kv => pyIn kv.1 (pyLower (buzzTitle ++ " " ++ content)))
      = [("bollywood", 2), ("today", 1)]) :
    calculate_buzz_score buzzTitle content = 15 := by
  unfold calculate_buzz_score
  dsimp only
  rw [foldl_filter_sum, foldl_filter_sum, hHigh, hCat, hlen]
  decide

set_option maxRecDepth 100000 in
/-- Witness for the amended C2 at the concrete all-'z' content. -/
theorem calculate_buzz_score_scenario_witness :
    zContent.length = 200 ∧
    HIGH_BUZZ_WORDS.filter
        (fun kv => pyIn kv.1 (pyLower (buzzTitle ++ " " ++ zContent)))
      = [("breaking", 4), ("scandal", 3), ("major", 2)] ∧
    CATEGORY_BUZZ_WORDS.filter
        (fun kv => pyIn kv.1 (pyLower (buzzTitle ++ " " ++ zContent)))
      = [("bollywood", 2), ("today", 1)] ∧
    calculate_buzz_score buzzTitle zContent = 15 :=
  ⟨by decide, by decide, by decide,
    calculate_buzz_score_scenario zContent (by decide) (by decide) (by decide)⟩

/-! ## Emotion matching below threshold (claim C3) -/

theorem foldl_best_le (f : String → ℚ) (θ : ℚ) (cands : List String) :
    ∀ acc : String × ℚ, acc.2 ≤ θ → (∀ c ∈ cands, f c ≤ θ) →
      (cands.foldl
        (fun acc c => if acc.2 < f c then (c, f c) else acc) acc).2 ≤ θ := by
  induction cands with
  | nil => intro acc hacc _; simpa using hacc
  | cons c cs ih =>
    intro acc hacc hall
    simp only [List.foldl_cons]
    refine ih _ ?_ (fun d hd => hall d (List.mem_cons_of_mem _ hd))
    split
    · exact hall c (List.mem_cons_self _ _)
    · exact hacc

theorem sim_zzzz_abba :
    calculate_similarity (pyStrip (pyLower "zzzz")) "abba" = 0 := by
  have hstr : pyStrip (pyLower (pyStrip (pyLower "zzzz"))) = "zzzz" := by decide
  have hstr2 : pyStrip (pyLower "abba") = "abba" := by decide
  unfold calculate_similarity
  rw [hstr, hstr2]
  unfold Difflib.sequenceRatio
  dsimp only
  rw [show ("zzzz".data.length) = 4 from rfl, show ("abba".data.length) = 4 from rfl]
  rw [show Difflib.matchSum "zzzz".data "abba".data (4 + 4 + 1) 0 4 0 4 = 0 from by decide]
  norm_num

/-- Counterexample to C3: with no exact match and best similarity at or
below the threshold, `find_most_similar_text` returns the first catalog
key, not the empty "no match" signal. -/
theorem find_most_similar_counterexample :
    (["abba"] : List String) ≠ [] ∧
    (["abba"].find?
      (fun c => pyStrip (pyLower c) == pyStrip (pyLower "zzzz"))) = none ∧
    calculate_similarity (pyStrip (pyLower "zzzz")) "abba" ≤ SIMILARITY_THRESHOLD ∧
    find_most_similar_text "zzzz" ["abba"] SIMILARITY_THRESHOLD = "abba" ∧
    ("abba" : String) ≠ "" := by
  refine ⟨by decide, by decide, ?_, ?_, by decide⟩
  · rw [sim_zzzz_abba]
    norm_num [SIMILARITY_THRESHOLD]
  · unfold find_most_similar_text
    dsimp only
    rw [show (["abba"].find?
      (fun c => pyStrip (pyLower c) == pyStrip (pyLower "zzzz"))) = none from by decide]
    simp only [List.foldl_cons, List.foldl_nil]
    rw [sim_zzzz_abba]
    norm_num [SIMILARITY_THRESHOLD]

/-- C3 amended: when the catalog is non-empty, no key matches exactly, and
every similarity ratio is at or below the (non-negative) threshold, the
matcher falls back to the FIRST catalog key — the empty string is
returned only for an empty catalog. -/
theorem find_most_similar_below_threshold (target : String)
    (candidates : List String) (threshold : ℚ)
    (hne : candidates ≠ [])
    (hexact : candidates.find?
        (fun c => pyStrip (pyLower c) == pyStrip (pyLower target)) = none)
    (hθ : 0 ≤ threshold)
    (hsim : ∀ c ∈ candidates,
      calculate_similarity (pyStrip (pyLower target)) c ≤ threshold) :
    find_most_similar_text target candidates threshold = candidates.headD "" := by
  unfold find_most_similar_text
  dsimp only
  rw [hexact]
  cases candidates with
  | nil => exact absurd rfl hne
  | cons c cs =>
    simp only [List.isEmpty_cons, Bool.false_eq_true, if_false]
    split
    · next h =>
      exact absurd h (not_lt.mpr
        (foldl_best_le (fun d => calculate_similarity (pyStrip (pyLower target)) d)
          threshold (c :: cs) ("", 0) hθ hsim))
    · rfl

/-! ## Text wrapping (claims C8, C10) -/

theorem wrapLoop_eq_go (measure : List Char → Int) (maxWidth : Int) :
    ∀ (ws lines : List (List Char)) (current : List Char),
      wrapLoop measure maxWidth ws lines current
        = lines ++ wrapGo measure maxWidth ws current := by
  intro ws
  induction ws with
  | nil =>
    intro lines current
    simp only [wrapLoop, wrapGo]
    split
    · simp
    · rfl
  | cons w ws ih =>
    intro lines current
    simp only [wrapLoop, wrapGo]
    by_cases hemp : current = []
    · simp only [if_pos hemp]
      split
      · exact ih lines _
      · rw [ih (lines ++ [w]) current]
        simp
    · simp only [if_neg hemp]
      split
      · exact ih lines _
      · rw [ih (lines ++ [current]) w]
        simp

theorem wrapGo_width_inv (measure : List Char → Int) (maxWidth : Int)
    (ws₀ : List (List Char)) :
    ∀ (ws : List (List Char)) (current : List Char),
      (current = [] ∨ current ∈ ws₀ ∨ measure current ≤ maxWidth) →
      (∀ w ∈ ws, w ∈ ws₀) →
      ∀ l ∈ wrapGo measure maxWidth ws current,
        measure l ≤ maxWidth ∨ l ∈ ws₀ := by
  intro ws
  induction ws with
  | nil =>
    intro current hcur _ l hl
    simp only [wrapGo] at hl
    split at hl
    · simp at hl
    · next hne =>
      rcases List.mem_singleton.mp hl with rfl
      rcases hcur with h | h | h
      · exact absurd h hne
      · exact Or.inr h
      · exact Or.inl h
  | cons w ws ih =>
    intro current hcur hws l hl
    have hws' : ∀ v ∈ ws, v ∈ ws₀ :=
      fun v hv => hws v (List.mem_cons_of_mem _ hv)
    have hwmem : w ∈ ws₀ := hws w (List.mem_cons_self _ _)
    simp only [wrapGo] at hl
    by_cases hemp : current = []
    · simp only [if_pos hemp] at hl
      split at hl
      · next hle => exact ih _ (Or.inr (Or.inr hle)) hws' l hl
      · rcases List.mem_cons.mp hl with rfl | hmem
        · exact Or.inr hwmem
        · exact ih current hcur hws' l hmem
    · simp only [if_neg hemp] at hl
      split at hl
      · next hle => exact ih _ (Or.inr (Or.inr hle)) hws' l hl
      · rcases List.mem_cons.mp hl with rfl | hmem
        · rcases hcur with h | h | h
          · exact absurd h hemp
          · exact Or.inr h
          · exact Or.inl h
        · exact ih w (Or.inr (Or.inl hwmem)) hws' l hmem

/-- C8: every line produced by `wrap_text` either fits the maximum width
under the given measurement, or is a single word of the split input
(placed alone, unsplit); in particular every multi-word line fits. -/
theorem wrap_text_width (measure : List Char → Int) (maxWidth : Int)
    (text : List Char) :
    ∀ line ∈ wrap_text measure maxWidth text,
      measure line ≤ maxWidth ∨ line ∈ pySplitSpace text := by
  intro line hline
  unfold wrap_text at hline
  rw [wrapLoop_eq_go] at hline
  simp only [List.nil_append] at hline
  exact wrapGo_width_inv measure maxWidth (pySplitSpace text)
    (pySplitSpace text) [] (Or.inl rfl) (fun _ h => h) line hline

/-- Witness for C8 at a concrete measurement (character count), width 5
and text "aa bb cc". -/
theorem wrap_text_width_witness :
    (fun l : List Char => (l.length : Int)) "aa bb".data ≤ 5 ∨
      "aa bb".data ∈ pySplitSpace "aa bb cc".data :=
  wrap_text_width (fun l : List Char => (l.length : Int)) 5 "aa bb cc".data
    "aa bb".data (by decide)

theorem pySplitSpace_ne_nil (l : List Char) : pySplitSpace l ≠ [] := by
  induction l with
  | nil => simp [pySplitSpace]
  | cons c rest ih =>
    simp only [pySplitSpace]
    split
    · simp
    · cases h : pySplitSpace rest with
      | nil => exact absurd h ih
      | cons w ws => simp

theorem pySplitSpace_no_space (l : List Char) :
    ∀ w ∈ pySplitSpace l, ' ' ∉ w := by
  induction l with
  | nil => intro w hw; simp [pySplitSpace] at hw; simp [hw]
  | cons c rest ih =>
    intro w hw
    simp only [pySplitSpace] at hw
    split at hw
    · rcases List.mem_cons.mp hw with rfl | h
      · simp
      · exact ih w h
    · next hc =>
      cases h : pySplitSpace rest with
      | nil => exact absurd h (pySplitSpace_ne_nil rest)
      | cons v vs =>
        rw [h] at hw
        rcases List.mem_cons.mp hw with rfl | hmem
        · intro hsp
          rcases List.mem_cons.mp hsp with heq | hmem2
          · exact hc heq.symm
          · exact ih v (h ▸ List.mem_cons_self _ _) hmem2
        · exact ih w (h ▸ List.mem_cons_of_mem _ hmem)

theorem pySplitSpace_append (w r : List Char) (hw : ' ' ∉ w) :
    pySplitSpace (w ++ ' ' :: r) = w :: pySplitSpace r := by
  induction w with
  | nil => simp [pySplitSpace]
  | cons c w ih =>
    have hc : c ≠ ' ' := fun h => hw (h ▸ List.mem_cons_self _ _)
    simp only [List.cons_append, pySplitSpace, List.append_eq]
    rw [if_neg hc]
    rw [ih (fun h => hw (List.mem_cons_of_mem _ h))]

theorem pySplitSpace_of_no_space (w : List Char) (hw : ' ' ∉ w) :
    pySplitSpace w = [w] := by
  induction w with
  | nil => simp [pySplitSpace]
  | cons c w ih =>
    have hc : c ≠ ' ' := fun h => hw (h ▸ List.mem_cons_self _ _)
    simp only [pySplitSpace]
    rw [if_neg hc, ih (fun h => hw (List.mem_cons_of_mem _ h))]

theorem joinSpace_cons_cons (w v : List Char) (ws : List (List Char)) :
    joinSpace (w :: v :: ws) = w ++ ' ' :: joinSpace (v :: ws) := rfl

theorem pySplitSpace_joinSpace (g : List (List Char)) (hg : g ≠ [])
    (hw : ∀ w ∈ g, ' ' ∉ w) :
    pySplitSpace (joinSpace g) = g := by
  induction g with
  | nil => exact absurd rfl hg
  | cons w g ih =>
    cases g with
    | nil =>
      simp only [joinSpace]
      exact pySplitSpace_of_no_space w (hw w (List.mem_cons_self _ _))
    | cons v g' =>
      rw [joinSpace_cons_cons,
        pySplitSpace_append w _ (hw w (List.mem_cons_self _ _)),
        ih (by simp) (fun u hu => hw u (List.mem_cons_of_mem _ hu))]

theorem joinSpace_eq_nil_iff (g : List (List Char))
    (hne : ∀ w ∈ g, w ≠ []) : joinSpace g = [] ↔ g = [] := by
  cases g with
  | nil => simp [joinSpace]
  | cons w g' =>
    cases g' with
    | nil =>
      simp only [joinSpace]
      have := hne w (List.mem_cons_self _ _)
      simp [this]
    | cons v g'' =>
      rw [joinSpace_cons_cons]
      cases w with
      | nil => exact absurd rfl (hne [] (List.mem_cons_self _ _))
      | cons c cs => simp

theorem joinSpace_append_single :
    ∀ (g : List (List Char)) (w : List Char), g ≠ [] →
      joinSpace (g ++ [w]) = joinSpace g ++ ' ' :: w
  | [], w, hg => absurd rfl hg
  | [v], w, _ => by simp [joinSpace]
  | v :: u :: g'', w, _ => by
    have ih := joinSpace_append_single (u :: g'') w (by simp)
    rw [show (v :: u :: g'') ++ [w] = v :: u :: (g'' ++ [w]) from rfl]
    rw [joinSpace_cons_cons v u (g'' ++ [w]), joinSpace_cons_cons v u g'']
    rw [show u :: (g'' ++ [w]) = (u :: g'') ++ [w] from rfl, ih]
    simp

theorem wrapGo_words_inv (measure : List Char → Int) (maxWidth : Int) :
    ∀ (ws g : List (List Char)),
      (∀ w ∈ ws, w ≠ [] ∧ ' ' ∉ w) →
      (∀ w ∈ g, w ≠ [] ∧ ' ' ∉ w) →
      (wrapGo measure maxWidth ws (joinSpace g)).flatMap pySplitSpace
        = g ++ ws := by
  intro ws
  induction ws with
  | nil =>
    intro g _ hg
    simp only [wrapGo]
    by_cases hgnil : g = []
    · subst hgnil
      rw [if_pos (show joinSpace ([] : List (List Char)) = [] from rfl)]
      simp
    · rw [if_neg (fun h =>
        hgnil ((joinSpace_eq_nil_iff g (fun w hw => (hg w hw).1)).mp h))]
      simp only [List.flatMap_cons, List.flatMap_nil, List.append_nil]
      rw [pySplitSpace_joinSpace g hgnil (fun w hw => (hg w hw).2)]
  | cons w ws ih =>
    intro g hws hg
    have hw := hws w (List.mem_cons_self _ _)
    have hws' : ∀ v ∈ ws, v ≠ [] ∧ ' ' ∉ v :=
      fun v hv => hws v (List.mem_cons_of_mem _ hv)
    simp only [wrapGo]
    by_cases hgnil : g = []
    · subst hgnil
      simp only [if_pos (show joinSpace ([] : List (List Char)) = [] from rfl)]
      rw [show joinSpace ([] : List (List Char)) = [] from rfl]
      simp only [List.nil_append]
      by_cases hwle : measure w ≤ maxWidth
      · rw [if_pos hwle]
        have := ih [w] hws' (by
          intro v hv
          rcases List.mem_singleton.mp hv with rfl
          exact hw)
        rw [show joinSpace [w] = w from rfl] at this
        rw [this]
        simp
      · rw [if_neg hwle]
        simp only [List.flatMap_cons]
        rw [pySplitSpace_of_no_space w hw.2]
        have := ih [] hws' (by simp)
        rw [show joinSpace ([] : List (List Char)) = [] from rfl] at this
        rw [this]
        simp
    · have hjne : joinSpace g ≠ [] := fun h =>
        hgnil ((joinSpace_eq_nil_iff g (fun v hv => (hg v hv).1)).mp h)
      simp only [if_neg hjne]
      rw [show joinSpace g ++ [' '] ++ w = joinSpace (g ++ [w]) from by
        rw [joinSpace_append_single g w hgnil, List.append_assoc]
        rfl]
      by_cases hwle : measure (joinSpace (g ++ [w])) ≤ maxWidth
      · rw [if_pos hwle]
        have := ih (g ++ [w]) hws' (by
          intro v hv
          rcases List.mem_append.mp hv with h | h
          · exact hg v h
          · rcases List.mem_singleton.mp h with rfl
            exact hw)
        rw [this]
        simp
      · rw [if_neg hwle]
        simp only [List.flatMap_cons]
        rw [pySplitSpace_joinSpace g hgnil (fun v hv => (hg v hv).2)]
        have := ih [w] hws' (by
          intro v hv
          rcases List.mem_singleton.mp hv with rfl
          exact hw)
        rw [show joinSpace [w] = w from rfl] at this
        rw [this]
        simp

/-- C10: when the input splits into non-empty words (no leading, trailing
or doubled spaces), `wrap_text` preserves the word sequence exactly:
re-splitting the produced lines and concatenating yields the input's
words. -/
theorem wrap_text_preserves_words (measure : List Char → Int)
    (maxWidth : Int) (text : List Char)
    (hne : ∀ w ∈ pySplitSpace text, w ≠ []) :
    (wrap_text measure maxWidth text).flatMap pySplitSpace
      = pySplitSpace text := by
  unfold wrap_text
  rw [wrapLoop_eq_go]
  simp only [List.nil_append]
  have := wrapGo_words_inv measure maxWidth (pySplitSpace text) []
    (fun w hw => ⟨hne w hw, pySplitSpace_no_space text w hw⟩) (by simp)
  rw [show joinSpace ([] : List (List Char)) = [] from rfl] at this
  rw [this]
  simp

/-- Witness for C10 at a concrete text with single spaces. -/
theorem wrap_text_preserves_words_witness :
    (wrap_text (fun l : List Char => (l.length : Int)) 5 "aa bb cc".data).flatMap
        pySplitSpace
      = pySplitSpace "aa bb cc".data :=
  wrap_text_preserves_words (fun l : List Char => (l.length : Int)) 5
    "aa bb cc".data (by decide)

/-- Witness for the amended C3 at concrete inputs. -/
theorem find_most_similar_below_threshold_witness :
    find_most_similar_text "zzzz" ["abba"] SIMILARITY_THRESHOLD =
      (["abba"] : List String).headD "" :=
  find_most_similar_below_threshold "zzzz" ["abba"] SIMILARITY_THRESHOLD
    (by decide) (by decide) (by norm_num [SIMILARITY_THRESHOLD])
    (by
      intro c hc
      rcases List.mem_singleton.mp hc with rfl
      rw [sim_zzzz_abba]
      norm_num [SIMILARITY_THRESHOLD])

/-! ## Article selection buckets (claim C1) -/

theorem processArticleList_hashes_sublist (unique : List Article) :
    ((processArticleList unique).map hashOfP).Sublist (unique.map hashOf) := by
  induction unique with
  | nil => simp [processArticleList]
  | cons a rest ih =>
    simp only [processArticleList, List.filterMap_cons] at ih ⊢
    split
    · exact (List.map_cons hashOf a rest ▸ ih.cons (hashOf a))
    · next p heq =>
      have hcontent : p.content = a.content := by
        split at heq
        · cases heq; rfl
        · cases heq
      simp only [List.map_cons]
      have : hashOfP p = hashOf a := by
        simp [hashOfP, hashOf, hcontent]
      rw [this]
      exact ih.cons₂ (hashOf a)

theorem processed_hashes_nodup (articles : List Article) :
    ((processArticleList (remove_duplicates_by_content articles)).map
      hashOfP).Nodup := by
  refine (processArticleList_hashes_sublist _).nodup ?_
  rw [rmdup_eq_go]
  exact rmdupGo_hashes_nodup articles []

theorem mem_groupFor {processed : List ProcessedArticle} {c : String}
    {p : ProcessedArticle} :
    p ∈ groupFor processed c ↔ p ∈ processed ∧ p.final_category = c := by
  simp [groupFor, List.mem_filter]

theorem mem_sortByBuzzDesc {l : List ProcessedArticle} {p : ProcessedArticle} :
    p ∈ sortByBuzzDesc l ↔ p ∈ l :=
  (List.mergeSort_perm l _).mem_iff

theorem groupFor_map_sublist (processed : List ProcessedArticle) (c : String) :
    ((groupFor processed c).map hashOfP).Sublist (processed.map hashOfP) :=
  (List.filter_sublist processed).map hashOfP

theorem selectForCategory_mem {processed : List ProcessedArticle} {c : String}
    {p : ProcessedArticle} (hp : p ∈ selectForCategory processed c) :
    p ∈ processed ∧ (p.final_category = c ∨ p.final_category = "entertainment") := by
  simp only [selectForCategory] at hp
  split at hp
  · have h1 : p ∈ sortByBuzzDesc (groupFor processed c) :=
      List.take_subset _ _ hp
    have h2 := mem_groupFor.mp (mem_sortByBuzzDesc.mp h1)
    exact ⟨h2.1, Or.inl h2.2⟩
  · split at hp
    · rcases List.mem_append.mp hp with h | h
      · have h2 := mem_groupFor.mp h
        exact ⟨h2.1, Or.inl h2.2⟩
      · have h1 : p ∈ (groupFor processed "entertainment").filter
            (fun a => !((groupFor processed c).contains a)) :=
          List.take_subset _ _ h
        have h2 := mem_groupFor.mp (List.mem_of_mem_filter h1)
        exact ⟨h2.1, Or.inr h2.2⟩
    · have h2 := mem_groupFor.mp hp
      exact ⟨h2.1, Or.inl h2.2⟩

theorem groupFor_hashes_nodup (articles : List Article) (c : String) :
    ((groupFor (processArticleList (remove_duplicates_by_content articles))
      c).map hashOfP).Nodup :=
  (groupFor_map_sublist _ c).nodup (processed_hashes_nodup articles)

theorem selectForCategory_hashes_nodup (articles : List Article) (c : String) :
    ((selectForCategory
      (processArticleList (remove_duplicates_by_content articles)) c).map
        hashOfP).Nodup := by
  set processed := processArticleList (remove_duplicates_by_content articles)
    with hprocessed
  have hproc : (processed.map hashOfP).Nodup := processed_hashes_nodup articles
  have hgrp : ∀ d, ((groupFor processed d).map hashOfP).Nodup :=
    fun d => groupFor_hashes_nodup articles d
  simp only [selectForCategory]
  split
  · have hperm : ((sortByBuzzDesc (groupFor processed c)).map hashOfP).Nodup := by
      refine ((List.mergeSort_perm (groupFor processed c) _).symm.map
        hashOfP).nodup ?_
      exact hgrp c
    rw [List.map_take]
    exact hperm.sublist (List.take_sublist _ _)
  · split
    · next hcond =>
      rw [List.map_append, List.nodup_append]
      have hextras_sub : (((groupFor processed "entertainment").filter
            (fun a => !((groupFor processed c).contains a))).take
              (ARTICLES_PER_CATEGORY - (groupFor processed c).length)).Sublist
          (groupFor processed "entertainment") :=
        (List.take_sublist _ _).trans (List.filter_sublist _)
      refine ⟨hgrp c, (hextras_sub.map hashOfP).nodup (hgrp "entertainment"), ?_⟩
      intro h h1 h2
      rcases List.mem_map.mp h1 with ⟨x, hx, hhx⟩
      rcases List.mem_map.mp h2 with ⟨y, hy, hhy⟩
      have hxg := mem_groupFor.mp hx
      have hyg := mem_groupFor.mp (hextras_sub.subset hy)
      have hxy : x = y :=
        List.inj_on_of_nodup_map hproc hxg.1 hyg.1 (by rw [hhx, hhy])
      exact hcond.1 (by rw [← hxg.2, hxy, hyg.2])
    · exact hgrp c

theorem lookup_map_self (f : String → List ProcessedArticle) :
    ∀ (l : List String) (c : String), c ∈ l →
      ((l.map fun x => (x, f x)).lookup c) = some (f c) := by
  intro l
  induction l with
  | nil => intro c hc; simp at hc
  | cons x xs ih =>
    intro c hc
    simp only [List.map_cons, List.lookup]
    by_cases hcx : c = x
    · subst hcx
      simp
    · have hbeq : (c == x) = false := beq_eq_false_iff_ne.mpr hcx
      simp only [hbeq]
      rcases List.mem_cons.mp hc with h | h
      · exact absurd h hcx
      · exact ih c h

theorem lookup_map_none (f : String → List ProcessedArticle) :
    ∀ (l : List String) (c : String), c ∉ l →
      ((l.map fun x => (x, f x)).lookup c) = none := by
  intro l
  induction l with
  | nil => intro c _; simp
  | cons x xs ih =>
    intro c hc
    simp only [List.map_cons, List.lookup]
    have hbeq : (c == x) = false :=
      beq_eq_false_iff_ne.mpr (fun h => hc (h ▸ List.mem_cons_self _ _))
    simp only [hbeq]
    exact ih c (fun h => hc (List.mem_cons_of_mem _ h))

theorem bucketOf_process (articles : List Article) (c : String)
    (hc : c ∈ TARGET_CATEGORIES) :
    bucketOf (process_articles articles) c
      = selectForCategory
          (processArticleList (remove_duplicates_by_content articles)) c := by
  unfold bucketOf process_articles
  dsimp only
  rw [lookup_map_self _ TARGET_CATEGORIES c hc]
  rfl

theorem bucketOf_process_not_target (articles : List Article) (c : String)
    (hc : c ∉ TARGET_CATEGORIES) :
    bucketOf (process_articles articles) c = [] := by
  unfold bucketOf process_articles
  dsimp only
  rw [lookup_map_none _ TARGET_CATEGORIES c hc]
  rfl

/-- C1 amended: within a single final bucket no content hash repeats, but
two distinct categories' buckets may share an article; any such shared
article is one and the same processed article and necessarily belongs to
the `entertainment` group (it was borrowed to fill a shortfall). -/
theorem process_articles_buckets (articles : List Article) :
    (∀ c : String,
      ((bucketOf (process_articles articles) c).map hashOfP).Nodup) ∧
    (∀ c1 c2 : String, c1 ∈ TARGET_CATEGORIES → c2 ∈ TARGET_CATEGORIES →
      c1 ≠ c2 →
      ∀ a ∈ bucketOf (process_articles articles) c1,
      ∀ b ∈ bucketOf (process_articles articles) c2,
        hashOfP a = hashOfP b →
        a = b ∧ a.final_category = "entertainment") := by
  constructor
  · intro c
    by_cases hc : c ∈ TARGET_CATEGORIES
    · rw [bucketOf_process articles c hc]
      exact selectForCategory_hashes_nodup articles c
    · rw [bucketOf_process_not_target articles c hc]
      simp
  · intro c1 c2 hc1 hc2 hne a ha b hb hhash
    rw [bucketOf_process articles c1 hc1] at ha
    rw [bucketOf_process articles c2 hc2] at hb
    have hamem := selectForCategory_mem ha
    have hbmem := selectForCategory_mem hb
    have hab : a = b :=
      List.inj_on_of_nodup_map (processed_hashes_nodup articles)
        hamem.1 hbmem.1 hhash
    refine ⟨hab, ?_⟩
    rcases hamem.2 with h1 | h1
    · rcases hbmem.2 with h2 | h2
      · exact absurd (by rw [← h1, hab, h2]) hne
      · rw [hab, h2]
    · exact h1

set_option maxRecDepth 1000000 in
/-- Counterexample to C1: a single article with source category
`entertainment` is placed in every bucket — its content hash appears in
both the `politics` and the `entertainment` final buckets. -/
theorem process_articles_duplicate_across_buckets :
    generate_content_hash "c" ∈
      ((bucketOf (process_articles [sampleEntArticle]) "politics").map hashOfP) ∧
    generate_content_hash "c" ∈
      ((bucketOf (process_articles [sampleEntArticle]) "entertainment").map
        hashOfP) ∧
    ("politics" : String) ≠ "entertainment" := by
  refine ⟨by decide, by decide, by decide⟩

set_option maxRecDepth 1000000 in
/-- Witness for the amended C1 on the same concrete input. -/
theorem process_articles_buckets_witness :
    (⟨"t", "c", some "entertainment", 1, "entertainment"⟩ : ProcessedArticle)
        = ⟨"t", "c", some "entertainment", 1, "entertainment"⟩ ∧
    (⟨"t", "c", some "entertainment", 1,
      "entertainment"⟩ : ProcessedArticle).final_category = "entertainment" :=
  (process_articles_buckets [sampleEntArticle]).2 "politics" "entertainment"
    (by decide) (by decide) (by decide)
    ⟨"t", "c", some "entertainment", 1, "entertainment"⟩ (by decide)
    ⟨"t", "c", some "entertainment", 1, "entertainment"⟩ (by decide) rfl

end NewsAuto
